import Mathlib

/-!
Verification of the RBH/RBF identifier-reconciliation pipeline of the
GIGANTIC homolog-discovery workflow (scripts 008, 009, 013, 015, 016).

Python strings are modelled as `List Char`; Python dicts as insertion-ordered
association lists (`List (Str × Str)`), with first-match lookup and
update-in-place insertion; Python sets as lists queried by membership.
Each embedded function follows the corresponding Python function line by line.
-/

abbrev Str := List Char

/-- Association-list lookup, modelling Python `dict[k]` / `dict.get(k)`. -/
def lookupA (m : List (Str × Str)) (k : Str) : Option Str :=
  match m with
  | [] => none
  | p :: rest => if p.1 = k then some p.2 else lookupA rest k

/-- Python `dict[k] = v`: update in place if the key exists, else append
(Python dicts preserve insertion order). -/
def dictInsert (m : List (Str × Str)) (k v : Str) : List (Str × Str) :=
  if m.any (fun p => p.1 = k) then
    m.map (fun p => if p.1 = k then (k, v) else p)
  else
    m ++ [(k, v)]

/-- Keys of an association list. -/
def keysOf (m : List (Str × Str)) : List Str := m.map Prod.fst

/-- The whitespace characters stripped by Python `str.strip()`. -/
def isPySpace (c : Char) : Bool :=
  c == ' ' || c == '\t' || c == '\n' || c == '\r' || c == '\x0b' || c == '\x0c'

/-- Python `str.strip()`. -/
def pstrip (s : Str) : Str :=
  ((s.dropWhile isPySpace).reverse.dropWhile isPySpace).reverse

/-- Python `b.startswith(a)`: `a` is a prefix of `b`. -/
def startsWithB (a b : Str) : Bool :=
  match a, b with
  | [], _ => true
  | _ :: _, [] => false
  | x :: xs, y :: ys => x == y && startsWithB xs ys

/-- Python `a in b` on strings: `a` occurs as a contiguous substring of `b`. -/
def containsSubB (a b : Str) : Bool :=
  match b with
  | [] => a == []
  | _ :: rest => startsWithB a b || containsSubB a rest

/-- Decimal digit characters of `n`, most significant first (fuel-based so that
it reduces in the kernel); `decRepr` instantiates the fuel. -/
def decDigitsAux : Nat → Nat → Str
  | 0, _ => []
  | fuel + 1, n =>
    if n < 10 then [Nat.digitChar n]
    else decDigitsAux fuel (n / 10) ++ [Nat.digitChar (n % 10)]

/-- Decimal representation of `n` as characters (`decRepr 0 = ['0']`). -/
def decRepr (n : Nat) : Str := decDigitsAux (n + 1) n

/-- Python `f"{n:03d}"`: decimal representation left-padded with zeros to
width 3. -/
def pad3 (n : Nat) : Str :=
  List.replicate (3 - (decRepr n).length) '0' ++ decRepr n

/-- The f-string `f"{base}_{counter:03d}"` used by the truncator. -/
def suffixed (base : Str) (counter : Nat) : Str := base ++ '_' :: pad3 counter

/-- One iteration of the loop of `create_truncated_headers_map` (script 008,
lines 87-114).  State: the `original_to_truncated` dict and the
`truncated_seen` counters. -/
def truncStep (max_length truncate_to : Nat)
    (st : List (Str × Str) × (Str → Nat)) (original_header : Str) :
    List (Str × Str) × (Str → Nat) :=
  if original_header.length ≤ max_length then
    (dictInsert st.1 original_header original_header, st.2)
  else
    let truncated_base := original_header.take truncate_to
    let counter := st.2 truncated_base + 1
    let candidate := suffixed truncated_base counter
    let truncated_header :=
      if max_length < candidate.length then
        suffixed (original_header.take (max_length - 4)) counter
      else candidate
    (dictInsert st.1 original_header truncated_header,
     fun s => if s = truncated_base then counter else st.2 s)

/-- `create_truncated_headers_map` (script 008, lines 63-120): mapping from
original headers to truncated headers, defaults `max_length = 50`,
`truncate_to = 45`. -/
def create_truncated_headers_map (headers : List Str)
    (max_length : Nat := 50) (truncate_to : Nat := 45) : List (Str × Str) :=
  (headers.foldl (truncStep max_length truncate_to) ([], fun _ => 0)).1

/-- The truncated header computed by `truncStep` for an over-long header `h`
with counter `c`, at the default parameters (`max_length = 50`,
`truncate_to = 45`): the 45-character base with `_NNN` appended, re-cut to a
46-character base when the suffixed string would exceed 50 characters. -/
def mkOut (h : Str) (c : Nat) : Str :=
  if 50 < (suffixed (h.take 45) c).length then suffixed (h.take 46) c
  else suffixed (h.take 45) c

/-- Numeric value of a decimal digit character. -/
def charVal (c : Char) : Nat := c.toNat - 48

/-- Invariant of the `create_truncated_headers_map` loop at the default
parameters: keys are exactly the processed headers in order; short headers map
to themselves; long headers map to `mkOut` at some positive counter bounded by
the `truncated_seen` entry of their 45-character base; and values of distinct
keys on the same side of the 50-character threshold are distinct. -/
def TruncInv (proc : List Str) (st : List (Str × Str) × (Str → Nat)) : Prop :=
  keysOf st.1 = proc ∧
  (∀ p ∈ st.1, p.1.length ≤ 50 → p.2 = p.1) ∧
  (∀ p ∈ st.1, 50 < p.1.length →
    ∃ c, 1 ≤ c ∧ c ≤ st.2 (p.1.take 45) ∧ p.2 = mkOut p.1 c) ∧
  (∀ p ∈ st.1, ∀ q ∈ st.1, p.1 ≠ q.1 →
    (p.1.length ≤ 50 ↔ q.1.length ≤ 50) → p.2 ≠ q.2)

/-- A 49-character header (45 `x`s followed by `_001`): short enough to pass
through the truncator unchanged. -/
def cxHeaderA : Str := List.replicate 45 'x' ++ ['_', '0', '0', '1']

/-- A 51-character header sharing the same 45-character prefix: truncated to
the 45 `x`s plus the counter suffix `_001`. -/
def cxHeaderB : Str := List.replicate 45 'x' ++ ['y', 'y', 'y', 'y', 'y', 'y']

-- ## Genome↔Reference Mapper (script 008, `create_rgs_genome_mapping`)

/-- A first-round BLAST report: its file path, whether the file exists, and
its raw lines. -/
structure BlastReport where
  path : Str
  present : Bool
  rows : List Str
  deriving DecidableEq

/-- State of the `create_rgs_genome_mapping` loop: the `genome_to_rgs` dict
and the `rgs_seen` / `genome_ids_seen` sets. -/
structure MapperState where
  genome_to_rgs : List (Str × Str)
  rgs_seen : List Str
  genome_ids_seen : List Str
  deriving DecidableEq

/-- Script 008, lines 270-274: the first model species whose name occurs as a
substring of the report path. -/
def find_report_species (model_species : List Str) (path : Str) : Option Str :=
  model_species.find? (fun species => containsSubB species path)

/-- Script 008, lines 283-306: processing of one line of a BLAST report for
the report's model species. -/
def mapperRowStep (report_model_species : Str) (st : MapperState)
    (raw : Str) : MapperState :=
  let line := pstrip raw
  if line = [] ∨ line.head? = some '#' then st
  else
    let parts := line.splitOn '\t'
    if parts.length < 2 then st
    else
      let rgs_query := parts.getD 0 []
      let genome_hit := parts.getD 1 []
      let rgs_parts := rgs_query.splitOn '-'
      if 2 ≤ rgs_parts.length then
        let rgs_species := rgs_parts.getD 1 []
        if rgs_species = report_model_species then
          if rgs_query ∉ st.rgs_seen ∧ genome_hit ∉ st.genome_ids_seen then
            ⟨dictInsert st.genome_to_rgs genome_hit rgs_query,
             rgs_query :: st.rgs_seen, genome_hit :: st.genome_ids_seen⟩
          else st
        else st
      else st

/-- Script 008, lines 263-306: processing of one BLAST report (skipped when
the file is missing or no model species is identified from its path; Python
treats an empty species name as falsy). -/
def mapperReportStep (model_species : List Str) (st : MapperState)
    (report : BlastReport) : MapperState :=
  if report.present = false then st
  else
    match find_report_species model_species report.path with
    | none => st
    | some species =>
      if species = [] then st
      else report.rows.foldl (mapperRowStep species) st

/-- `create_rgs_genome_mapping` (script 008, lines 236-323): the
genome→RGS mapping built greedily across all reports.  The `rgs_sequences`
argument mirrors the Python parameter, which the mapping logic never uses. -/
def create_rgs_genome_mapping (blast_reports : List BlastReport)
    (rgs_sequences : List (Str × (Str × Str × Str)))
    (model_species : List Str) : List (Str × Str) :=
  (blast_reports.foldl (mapperReportStep model_species)
    ⟨[], [], []⟩).genome_to_rgs

/-- Invariant of the `create_rgs_genome_mapping` loop: every key of
`genome_to_rgs` has been marked consumed in `genome_ids_seen`, every value in
`rgs_seen`, and both the keys and the values of the mapping are
duplicate-free. -/
def MapperInv (st : MapperState) : Prop :=
  (∀ p ∈ st.genome_to_rgs, p.1 ∈ st.genome_ids_seen) ∧
  (∀ p ∈ st.genome_to_rgs, p.2 ∈ st.rgs_seen) ∧
  (st.genome_to_rgs.map Prod.fst).Nodup ∧
  (st.genome_to_rgs.map Prod.snd).Nodup

-- ## Modified-Genome Synthesizer (script 009, `create_modified_genome`)

/-- A FASTA record: stripped header identifier and raw sequence lines. -/
structure FastaRec where
  header : Str
  seqLines : List Str
  deriving DecidableEq

/-- Chunks of 80 characters, modelling script 009's
`for i in range(0, len(seq), 80)` sequence re-wrapping (fuel-based so that it
reduces in the kernel). -/
def wrapChunksAux : Nat → Str → List Str
  | 0, _ => []
  | _, [] => []
  | fuel + 1, s => s.take 80 :: wrapChunksAux fuel (s.drop 80)

/-- Re-wrap a sequence at 80 characters per line. -/
def wrap80 (s : Str) : List Str := wrapChunksAux s.length s

/-- Script 009, lines 244-289, per record: replace a mapped genome sequence by
its RGS counterpart when the RGS sequence is found and non-empty (Python
`if replacement_sequence:` is false for `None` and for the empty string);
otherwise keep the original record. -/
def modify_record (truncMap fullMap rgs_sequences : List (Str × Str))
    (rec : FastaRec) : FastaRec :=
  match lookupA fullMap rec.header with
  | some rgs_full_header =>
    let rgs_truncated_header := (lookupA truncMap rec.header).getD rgs_full_header
    match lookupA rgs_sequences rgs_full_header with
    | some replacement_sequence =>
      if replacement_sequence = [] then rec
      else ⟨rgs_truncated_header, wrap80 replacement_sequence⟩
    | none => rec
  | none => rec

/-- `create_modified_genome` (script 009, lines 207-296), at the level of
FASTA records of one input genome database. -/
def create_modified_genome (truncMap fullMap rgs_sequences : List (Str × Str))
    (records : List FastaRec) : List FastaRec :=
  records.map (modify_record truncMap fullMap rgs_sequences)

-- ## Reciprocal Filter (script 013)

/-- Script 013, lines 82-99: contribution of one mapping-file line to the
exclusion list — all three columns of a three-column row (genome id,
truncated header, full header), both columns of a two-column row. -/
def loadIdStep (ids : List Str) (line : Str) : List Str :=
  let parts := (pstrip line).splitOn '\t'
  if 3 ≤ parts.length then
    ids ++ [parts.getD 0 [], parts.getD 1 [], parts.getD 2 []]
  else if 2 ≤ parts.length then
    ids ++ [parts.getD 1 [], parts.getD 0 []]
  else ids

/-- `load_rgs_identifiers` (script 013, lines 63-104): the exclusion list
built from the mapping-file lines. -/
def load_rgs_identifiers (mapping_lines : List Str) : List Str :=
  mapping_lines.foldl loadIdStep []

/-- Script 013, lines 146-149: the species name parsed from a hit identifier
(second `-`-separated field; last `_`-separated piece of it, lowercased). -/
def hitSpeciesName (species_part : Str) : Str :=
  if species_part.contains '_' then
    ((species_part.splitOn '_').getLastD []).map Char.toLower
  else species_part.map Char.toLower

/-- Script 013, lines 132-160: classification of one report line, updating
the keeper list and the dropped (rejects) log. -/
def reciprocalRowStep (rgs_identifiers : List Str) (rbh_species : List Str)
    (acc : List Str × List (Str × Str)) (raw : Str) :
    List Str × List (Str × Str) :=
  let parts := (pstrip raw).splitOn '\t'
  if parts.length < 2 then acc
  else
    let query := parts.getD 0 []
    let hit := parts.getD 1 []
    let hit_parts := hit.splitOn '-'
    if hit_parts.length < 2 then acc
    else
      let species_name := hitSpeciesName (hit_parts.getD 1 [])
      let is_rbh_species := rbh_species.any (fun sp => containsSubB sp species_name)
      if is_rbh_species then
        if query ∈ rgs_identifiers then acc
        else (acc.1 ++ [query], acc.2)
      else (acc.1, acc.2 ++ [(query, hit)])

/-- `parse_reciprocal_blast_results` (script 013, lines 107-165): returns the
keeper identifiers and the dropped-sequences log. -/
def parse_reciprocal_blast_results (report_lines : List Str)
    (rgs_identifiers : List Str) (rbh_species : List Str) :
    List Str × List (Str × Str) :=
  report_lines.foldl (reciprocalRowStep rgs_identifiers rbh_species) ([], [])

/-- `extract_keeper_sequences` (script 013, lines 168-220), at record level:
records of the listed databases whose header is in the keeper set, with the
extracted count. -/
def extract_keeper_sequences (keepers : List Str)
    (databases : List (List FastaRec)) : List FastaRec × Nat :=
  let extracted :=
    (databases.map (fun db =>
      db.filter (fun rec => keepers.contains rec.header))).flatten
  (extracted, extracted.length)

/-- Script 013 `main`, lines 317-330: behaviour after keeper extraction —
exit status, whether the output FASTA file is created, and its records.  With
zero keepers the script logs a warning, touches an empty output file and exits
with status 0 (lines 317-321); otherwise it extracts and exits normally. -/
def mainAfterKeepers (keepers : List Str)
    (databases : List (List FastaRec)) : Nat × Bool × List FastaRec :=
  if keepers.isEmpty then (0, true, [])
  else (0, true, (extract_keeper_sequences keepers databases).1)

-- ## Identifier Remapper / Assembler (scripts 015 and 016)

/-- Result of `remap_fasta_identifiers` (script 015). -/
structure RemapResult where
  records : List FastaRec
  sequences_processed : Nat
  sequences_remapped : Nat
  sequences_not_found : Nat
  deriving DecidableEq

/-- Script 015, lines 140-159, per record: a header found in the mapping is
rewritten to the full GIGANTIC identifier; one not found is kept unchanged
with a warning, counted as not found. -/
def remapRecStep (short_ids___gigantic_ids : List (Str × Str))
    (acc : RemapResult) (rec : FastaRec) : RemapResult :=
  match lookupA short_ids___gigantic_ids rec.header with
  | some gigantic_id =>
    ⟨acc.records ++ [⟨gigantic_id, rec.seqLines⟩],
     acc.sequences_processed + 1, acc.sequences_remapped + 1,
     acc.sequences_not_found⟩
  | none =>
    ⟨acc.records ++ [rec],
     acc.sequences_processed + 1, acc.sequences_remapped,
     acc.sequences_not_found + 1⟩

/-- `remap_fasta_identifiers` (script 015, lines 112-161), at record level. -/
def remap_fasta_identifiers (records : List FastaRec)
    (short_ids___gigantic_ids : List (Str × Str)) : RemapResult :=
  records.foldl (remapRecStep short_ids___gigantic_ids) ⟨[], 0, 0, 0⟩

/-- Script 015 `main`, lines 257-260: the run exits with status 1 when zero
sequences were remapped, otherwise completes with status 0. -/
def remap_main_exit (records : List FastaRec)
    (short_ids___gigantic_ids : List (Str × Str)) : Nat :=
  if (remap_fasta_identifiers records short_ids___gigantic_ids).sequences_remapped = 0
  then 1 else 0

/-- Script 016, lines 188-199: resolution of an RGS header to a CGS short id —
exact dict lookup first, then the first key related to the header by
`startswith` in either direction. -/
def resolve_cgs (rgs_headers___cgs_ids : List (Str × Str)) (header : Str) :
    Option Str :=
  match lookupA rgs_headers___cgs_ids header with
  | some cgs_id => some cgs_id
  | none =>
    (rgs_headers___cgs_ids.find?
      (fun p => startsWithB p.1 header || startsWithB header p.1)).map Prod.snd

/-- Script 016, lines 186-213, per record: the output header and whether the
record counts as mapped (Python `if cgs_id and cgs_id in cgs_ids___gigantic_ids`,
false for a missing chain link or an empty CGS id). -/
def remap_rgs_header (rgs_headers___cgs_ids cgs_ids___gigantic_ids : List (Str × Str))
    (original_header : Str) : Str × Bool :=
  match resolve_cgs rgs_headers___cgs_ids original_header with
  | some cgs_id =>
    if cgs_id = [] then (original_header, false)
    else
      match lookupA cgs_ids___gigantic_ids cgs_id with
      | some new_header => (new_header, true)
      | none => (original_header, false)
  | none => (original_header, false)

/-- Script 016, lines 179-217, per record: remap the header through the
two-table chain and count the record as mapped or unmapped. -/
def remapRgsStep (rgs_headers___cgs_ids cgs_ids___gigantic_ids : List (Str × Str))
    (acc : List (Str × Str) × Nat × Nat) (rec : FastaRec) :
    List (Str × Str) × Nat × Nat :=
  let r := remap_rgs_header rgs_headers___cgs_ids cgs_ids___gigantic_ids rec.header
  if r.2 then (acc.1 ++ [(r.1, rec.seqLines.flatten)], acc.2.1 + 1, acc.2.2)
  else (acc.1 ++ [(r.1, rec.seqLines.flatten)], acc.2.1, acc.2.2 + 1)

/-- `remap_rgs_sequences` (script 016, lines 150-227), at record level:
remapped `(header, joined-sequence)` pairs plus the mapped and unmapped
counts. -/
def remap_rgs_sequences (records : List FastaRec)
    (rgs_headers___cgs_ids cgs_ids___gigantic_ids : List (Str × Str)) :
    List (Str × Str) × Nat × Nat :=
  records.foldl (remapRgsStep rgs_headers___cgs_ids cgs_ids___gigantic_ids)
    ([], 0, 0)

-- ### Decimal-representation lemmas

theorem decDigitsAux_irrel (n : Nat) : ∀ f g, n < f → n < g →
    decDigitsAux f n = decDigitsAux g n := by
  induction n using Nat.strong_induction_on with
  | _ n ih =>
    intro f g hf hg
    match f, g with
    | f' + 1, g' + 1 =>
      by_cases h10 : n < 10
      · simp [decDigitsAux, h10]
      · have hpos : 0 < n := by omega
        have hdiv : n / 10 < n := Nat.div_lt_self hpos (by omega)
        simp only [decDigitsAux, h10, if_false]
        rw [ih (n / 10) hdiv f' g' (by omega) (by omega)]

theorem decRepr_eq (n : Nat) :
    decRepr n = if n < 10 then [Nat.digitChar n]
                else decRepr (n / 10) ++ [Nat.digitChar (n % 10)] := by
  have h1 : decDigitsAux (n + 1) n =
      if n < 10 then [Nat.digitChar n]
      else decDigitsAux n (n / 10) ++ [Nat.digitChar (n % 10)] := rfl
  by_cases h10 : n < 10
  · simp only [decRepr, h1, h10, if_true]
  · have hpos : 0 < n := by omega
    have hdiv : n / 10 < n := Nat.div_lt_self hpos (by omega)
    simp only [decRepr, h1, h10, if_false]
    rw [decDigitsAux_irrel (n / 10) n (n / 10 + 1) (by omega) (by omega)]

theorem charVal_digitChar (d : Nat) (h : d < 10) :
    charVal (Nat.digitChar d) = d := by
  interval_cases d <;> rfl

theorem digitChar_ne_zero_char (d : Nat) (h1 : 1 ≤ d) (h2 : d < 10) :
    Nat.digitChar d ≠ '0' := by
  interval_cases d <;> decide

theorem decRepr_foldl (n : Nat) :
    (decRepr n).foldl (fun a c => 10 * a + charVal c) 0 = n := by
  induction n using Nat.strong_induction_on with
  | _ n ih =>
    rw [decRepr_eq]
    by_cases h10 : n < 10
    · simp [h10, List.foldl, charVal_digitChar n h10]
    · have hpos : 0 < n := by omega
      have hdiv : n / 10 < n := Nat.div_lt_self hpos (by omega)
      simp only [h10, if_false, List.foldl_append, List.foldl, ih (n / 10) hdiv]
      rw [charVal_digitChar (n % 10) (Nat.mod_lt n (by omega))]
      omega

theorem decRepr_injective {m n : Nat} (h : decRepr m = decRepr n) : m = n := by
  have := decRepr_foldl m
  rw [h, decRepr_foldl] at this
  omega

theorem decRepr_ne_nil (n : Nat) : decRepr n ≠ [] := by
  rw [decRepr_eq]
  by_cases h10 : n < 10 <;> simp [h10]

theorem decRepr_head_ne_zero (n : Nat) (h : 1 ≤ n) :
    ∀ c, (decRepr n).head? = some c → c ≠ '0' := by
  induction n using Nat.strong_induction_on with
  | _ n ih =>
    intro c hc
    rw [decRepr_eq] at hc
    by_cases h10 : n < 10
    · simp only [h10, if_true, List.head?] at hc
      cases hc
      exact digitChar_ne_zero_char n (by omega) h10
    · have hpos : 0 < n := by omega
      have hdiv : n / 10 < n := Nat.div_lt_self hpos (by omega)
      have hge : 1 ≤ n / 10 := Nat.le_div_iff_mul_le (by omega) |>.mpr (by omega)
      simp only [h10, if_false] at hc
      rcases hnil : decRepr (n / 10) with _ | ⟨d, ds⟩
      · exact absurd hnil (decRepr_ne_nil (n / 10))
      · rw [hnil] at hc
        simp only [List.cons_append, List.head?] at hc
        cases hc
        apply ih (n / 10) hdiv hge
        rw [hnil]; rfl

theorem decRepr_length_le (k : Nat) : ∀ n, n < 10 ^ (k + 1) →
    (decRepr n).length ≤ k + 1 := by
  induction k with
  | zero =>
    intro n hn
    have hn' : n < 10 := by norm_num at hn; omega
    rw [decRepr_eq]
    simp [hn']
  | succ k ih =>
    intro n hn
    rw [decRepr_eq]
    by_cases h10 : n < 10
    · simp [h10]
    · have hdiv : n / 10 < 10 ^ (k + 1) := by
        rw [Nat.div_lt_iff_lt_mul (by omega)]
        calc n < 10 ^ (k + 1 + 1) := hn
        _ = 10 ^ (k + 1) * 10 := by ring
      simp only [h10, if_false, List.length_append, List.length_cons,
        List.length_nil]
      have := ih (n / 10) hdiv
      omega

theorem decRepr_length_ge (k : Nat) : ∀ n, 10 ^ k ≤ n →
    k + 1 ≤ (decRepr n).length := by
  induction k with
  | zero =>
    intro n _
    have := decRepr_ne_nil n
    rcases h : decRepr n with _ | ⟨d, ds⟩
    · exact absurd h this
    · simp
  | succ k ih =>
    intro n hn
    have h10 : ¬ n < 10 := by
      have : 10 ^ 1 ≤ 10 ^ (k + 1) := Nat.pow_le_pow_right (by omega) (by omega)
      simp only [pow_one] at this
      omega
    rw [decRepr_eq]
    simp only [h10, if_false, List.length_append, List.length_cons,
      List.length_nil]
    have hdiv : 10 ^ k ≤ n / 10 := by
      rw [Nat.le_div_iff_mul_le (by omega)]
      calc 10 ^ k * 10 = 10 ^ (k + 1) := by ring
      _ ≤ n := hn
    have := ih (n / 10) hdiv
    omega

theorem pad3_length (n : Nat) : (pad3 n).length = max 3 (decRepr n).length := by
  simp only [pad3, List.length_append, List.length_replicate]
  omega

theorem pad3_length_le (c : Nat) (h : c < 10000) : (pad3 c).length ≤ 4 := by
  have := decRepr_length_le 3 c (by norm_num; omega)
  rw [pad3_length]
  omega

theorem pad3_length_ge (c : Nat) (h : 10000 ≤ c) : 5 ≤ (pad3 c).length := by
  have := decRepr_length_ge 4 c (by norm_num; omega)
  rw [pad3_length]
  omega

theorem dropWhile_replicate_append (k : Nat) (l : Str)
    (hl : ∀ c, l.head? = some c → c ≠ '0') :
    List.dropWhile (fun c => c == '0') (List.replicate k '0' ++ l) = l := by
  induction k with
  | zero =>
    simp only [List.replicate, List.nil_append]
    cases l with
    | nil => rfl
    | cons c cs =>
      have hne : c ≠ '0' := hl c rfl
      have hb : (c == '0') = false := by simp [hne]
      simp [List.dropWhile, hb]
  | succ k ih =>
    simpa [List.replicate, List.dropWhile] using ih

theorem pad3_injective {m n : Nat} (hm : 1 ≤ m) (hn : 1 ≤ n)
    (h : pad3 m = pad3 n) : m = n := by
  apply decRepr_injective
  have hm' := dropWhile_replicate_append (3 - (decRepr m).length) (decRepr m)
    (decRepr_head_ne_zero m hm)
  have hn' := dropWhile_replicate_append (3 - (decRepr n).length) (decRepr n)
    (decRepr_head_ne_zero n hn)
  calc decRepr m
      = List.dropWhile (fun c => c == '0') (pad3 m) := (hm').symm
    _ = List.dropWhile (fun c => c == '0') (pad3 n) := by rw [h]
    _ = decRepr n := hn'

-- ### Association-list lemmas

theorem dictInsert_of_fresh (m : List (Str × Str)) (k v : Str)
    (h : ∀ p ∈ m, p.1 ≠ k) : dictInsert m k v = m ++ [(k, v)] := by
  have hany : m.any (fun p => p.1 = k) = false := by
    rw [List.any_eq_false]
    intro p hp
    simp [h p hp]
  simp [dictInsert, hany]

theorem mem_keysOf {m : List (Str × Str)} {k : Str} :
    k ∈ keysOf m ↔ ∃ v, (k, v) ∈ m := by
  constructor
  · intro hk
    obtain ⟨p, hp, he⟩ := List.mem_map.mp hk
    refine ⟨p.2, ?_⟩
    have hpe : p = (k, p.2) := by rw [← he]
    rwa [hpe] at hp
  · rintro ⟨v, hv⟩
    exact List.mem_map_of_mem Prod.fst hv

theorem lookupA_eq_some_of_mem {m : List (Str × Str)}
    (hnd : (keysOf m).Nodup) {k v : Str} (hm : (k, v) ∈ m) :
    lookupA m k = some v := by
  induction m with
  | nil => cases hm
  | cons p rest ih =>
    have hnd' : (keysOf rest).Nodup := (List.nodup_cons.mp hnd).2
    cases hm with
    | head => simp [lookupA]
    | tail _ hm' =>
      have hkmem : k ∈ keysOf rest := List.mem_map_of_mem Prod.fst hm'
      have hne : p.1 ≠ k := by
        intro he
        exact (List.nodup_cons.mp hnd).1 (he ▸ hkmem)
      simp only [lookupA, if_neg hne]
      exact ih hnd' hm'

-- ### Truncated-output analysis at the default parameters

theorem length_suffixed (b : Str) (c : Nat) :
    (suffixed b c).length = b.length + 1 + (pad3 c).length := by
  simp only [suffixed, List.length_append, List.length_cons]
  omega

theorem length_take_of_le {h : Str} {k : Nat} (hk : k ≤ h.length) :
    (h.take k).length = k := by
  simp only [List.length_take]
  omega

theorem mkOut_inj {h1 h2 : Str} {c1 c2 : Nat} (hl1 : 50 < h1.length)
    (hl2 : 50 < h2.length) (hc1 : 1 ≤ c1) (hc2 : 1 ≤ c2)
    (heq : mkOut h1 c1 = mkOut h2 c2) : h1.take 45 = h2.take 45 ∧ c1 = c2 := by
  have l145 : (h1.take 45).length = 45 := length_take_of_le (by omega)
  have l245 : (h2.take 45).length = 45 := length_take_of_le (by omega)
  have l146 : (h1.take 46).length = 46 := length_take_of_le (by omega)
  have l246 : (h2.take 46).length = 46 := length_take_of_le (by omega)
  have t145 : (h1.take 46).take 45 = h1.take 45 := by
    rw [List.take_take]; norm_num
  have t245 : (h2.take 46).take 45 = h2.take 45 := by
    rw [List.take_take]; norm_num
  unfold mkOut at heq
  by_cases e1 : 50 < (suffixed (h1.take 45) c1).length <;>
    by_cases e2 : 50 < (suffixed (h2.take 45) c2).length
  · rw [if_pos e1, if_pos e2] at heq
    obtain ⟨hb, ht⟩ := List.append_inj heq (by rw [l146, l246])
    injection ht with _ hpad
    exact ⟨by rw [← t145, ← t245, hb], pad3_injective hc1 hc2 hpad⟩
  · exfalso
    rw [if_pos e1, if_neg e2] at heq
    have hlen := congrArg List.length heq
    rw [length_suffixed, length_suffixed, l146, l245] at hlen
    rw [length_suffixed, l145] at e1
    rw [length_suffixed, l245] at e2
    omega
  · exfalso
    rw [if_neg e1, if_pos e2] at heq
    have hlen := congrArg List.length heq
    rw [length_suffixed, length_suffixed, l145, l246] at hlen
    rw [length_suffixed, l145] at e1
    rw [length_suffixed, l245] at e2
    omega
  · rw [if_neg e1, if_neg e2] at heq
    obtain ⟨hb, ht⟩ := List.append_inj heq (by rw [l145, l245])
    injection ht with _ hpad
    exact ⟨hb, pad3_injective hc1 hc2 hpad⟩

theorem truncStep_short (st : List (Str × Str) × (Str → Nat)) (h : Str)
    (hl : h.length ≤ 50) :
    truncStep 50 45 st h = (dictInsert st.1 h h, st.2) := by
  unfold truncStep
  rw [if_pos hl]

theorem truncStep_long (st : List (Str × Str) × (Str → Nat)) (h : Str)
    (hl : 50 < h.length) :
    truncStep 50 45 st h =
      (dictInsert st.1 h (mkOut h (st.2 (h.take 45) + 1)),
       fun s => if s = h.take 45 then st.2 (h.take 45) + 1 else st.2 s) := by
  unfold truncStep mkOut
  rw [if_neg (by omega)]

theorem keysOf_append (m : List (Str × Str)) (p : Str × Str) :
    keysOf (m ++ [p]) = keysOf m ++ [p.1] := by
  simp [keysOf]

theorem truncStep_inv {proc : List Str} {st : List (Str × Str) × (Str → Nat)}
    (h : Str) (hinv : TruncInv proc st) (hfresh : h ∉ proc) :
    TruncInv (proc ++ [h]) (truncStep 50 45 st h) := by
  obtain ⟨hkeys, hshort, hlong, hdist⟩ := hinv
  have hfreshm : ∀ p ∈ st.1, p.1 ≠ h := by
    intro p hp he
    exact hfresh (hkeys ▸ (he ▸ List.mem_map_of_mem Prod.fst hp))
  by_cases hside : h.length ≤ 50
  · rw [truncStep_short st h hside, dictInsert_of_fresh st.1 h h hfreshm]
    refine ⟨?_, ?_, ?_, ?_⟩
    · rw [keysOf_append, hkeys]
    · intro p hp _
      rcases List.mem_append.mp hp with hold | hnew
      · exact hshort p hold (by omega)
      · rw [List.mem_singleton.mp hnew]
    · intro p hp hpl
      rcases List.mem_append.mp hp with hold | hnew
      · exact hlong p hold hpl
      · have hpl' : 50 < h.length := by
          rw [List.mem_singleton.mp hnew] at hpl
          exact hpl
        omega
    · intro p hp q hq hne hiff
      rcases List.mem_append.mp hp with hpold | hpnew <;>
        rcases List.mem_append.mp hq with hqold | hqnew
      · exact hdist p hpold q hqold hne hiff
      · rw [List.mem_singleton.mp hqnew]
        rw [List.mem_singleton.mp hqnew] at hne hiff
        have hiff' : p.1.length ≤ 50 ↔ h.length ≤ 50 := hiff
        have hqside : p.1.length ≤ 50 := hiff'.mpr hside
        rw [hshort p hpold hqside]
        exact hne
      · rw [List.mem_singleton.mp hpnew]
        rw [List.mem_singleton.mp hpnew] at hne hiff
        have hiff' : h.length ≤ 50 ↔ q.1.length ≤ 50 := hiff
        have hqside : q.1.length ≤ 50 := hiff'.mp hside
        rw [hshort q hqold hqside]
        exact hne
      · rw [List.mem_singleton.mp hpnew, List.mem_singleton.mp hqnew] at hne
        exact absurd rfl hne
  · have hlength : 50 < h.length := by omega
    rw [truncStep_long st h hlength,
      dictInsert_of_fresh st.1 h (mkOut h (st.2 (h.take 45) + 1)) hfreshm]
    refine ⟨?_, ?_, ?_, ?_⟩
    · rw [keysOf_append, hkeys]
    · intro p hp hps
      rcases List.mem_append.mp hp with hold | hnew
      · exact hshort p hold hps
      · have hps' : h.length ≤ 50 := by
          rw [List.mem_singleton.mp hnew] at hps
          exact hps
        omega
    · intro p hp hpl
      rcases List.mem_append.mp hp with hold | hnew
      · obtain ⟨c, hc1, hc2, hc3⟩ := hlong p hold hpl
        refine ⟨c, hc1, ?_, hc3⟩
        show c ≤ if p.1.take 45 = h.take 45
          then st.2 (h.take 45) + 1 else st.2 (p.1.take 45)
        by_cases hb : p.1.take 45 = h.take 45
        · rw [if_pos hb]
          rw [hb] at hc2
          omega
        · rw [if_neg hb]
          exact hc2
      · have hpe : p = (h, mkOut h (st.2 (h.take 45) + 1)) :=
          List.mem_singleton.mp hnew
        refine ⟨st.2 (h.take 45) + 1, by omega, ?_, by rw [hpe]⟩
        rw [hpe]
        simp
    · intro p hp q hq hne hiff
      rcases List.mem_append.mp hp with hpold | hpnew <;>
        rcases List.mem_append.mp hq with hqold | hqnew
      · exact hdist p hpold q hqold hne hiff
      · rw [List.mem_singleton.mp hqnew]
        rw [List.mem_singleton.mp hqnew] at hne hiff
        have hiff' : p.1.length ≤ 50 ↔ h.length ≤ 50 := hiff
        have hpl : 50 < p.1.length := by
          rcases Nat.lt_or_ge 50 p.1.length with hgt | hle
          · exact hgt
          · exact absurd (hiff'.mp (by omega)) (by omega)
        obtain ⟨c, hc1, hc2, hc3⟩ := hlong p hpold hpl
        rw [hc3]
        intro habs
        obtain ⟨hbase, hcnt⟩ := mkOut_inj hpl hlength hc1 (by omega) habs
        rw [hbase] at hc2
        omega
      · rw [List.mem_singleton.mp hpnew]
        rw [List.mem_singleton.mp hpnew] at hne hiff
        have hiff' : h.length ≤ 50 ↔ q.1.length ≤ 50 := hiff
        have hql : 50 < q.1.length := by
          rcases Nat.lt_or_ge 50 q.1.length with hgt | hle
          · exact hgt
          · exact absurd (hiff'.mpr (by omega)) (by omega)
        obtain ⟨c, hc1, hc2, hc3⟩ := hlong q hqold hql
        rw [hc3]
        intro habs
        obtain ⟨hbase, hcnt⟩ := mkOut_inj hlength hql (by omega) hc1 habs
        rw [← hbase] at hc2
        omega
      · rw [List.mem_singleton.mp hpnew, List.mem_singleton.mp hqnew] at hne
        exact absurd rfl hne

theorem trunc_fold_inv : ∀ (hs : List Str) (proc : List Str)
    (st : List (Str × Str) × (Str → Nat)),
    TruncInv proc st → (∀ x ∈ hs, x ∉ proc) → hs.Nodup →
    TruncInv (proc ++ hs) (hs.foldl (truncStep 50 45) st) := by
  intro hs
  induction hs with
  | nil =>
    intro proc st hinv _ _
    simpa using hinv
  | cons a t ih =>
    intro proc st hinv hf hnd
    have hstep := truncStep_inv a hinv (hf a (List.mem_cons_self a t))
    have hf' : ∀ x ∈ t, x ∉ proc ++ [a] := by
      intro x hx
      rw [List.mem_append, List.mem_singleton]
      rintro (hp | he)
      · exact hf x (List.mem_cons_of_mem a hx) hp
      · exact (List.nodup_cons.mp hnd).1 (he ▸ hx)
    have := ih (proc ++ [a]) (truncStep 50 45 st a) hstep hf'
      (List.nodup_cons.mp hnd).2
    simpa [List.append_assoc] using this

theorem create_truncated_inv (headers : List Str) (hnd : headers.Nodup) :
    TruncInv headers (headers.foldl (truncStep 50 45) ([], fun _ => 0)) := by
  have hbase : TruncInv [] (([] : List (Str × Str)), fun _ => (0 : Nat)) := by
    refine ⟨rfl, ?_, ?_, ?_⟩ <;> intro p hp <;> cases hp
  simpa using trunc_fold_inv headers [] ([], fun _ => 0) hbase
    (by intro x _ hx; cases hx) hnd

-- ## Claim C1: injectivity of the Identifier Truncator

/-- C1 (amended).  At the default parameters, `create_truncated_headers_map`
is injective on headers lying on the same side of the 50-character threshold:
for a duplicate-free header list, two distinct headers that are both short
(passed through unchanged) or both over-long (truncated with a counter
suffix) are assigned different outputs.  (The unamended claim fails across
the threshold: see the counterexample.) -/
theorem create_truncated_headers_map_injective_same_side
    (headers : List Str) (h1 h2 : Str) (hnd : headers.Nodup)
    (m1 : h1 ∈ headers) (m2 : h2 ∈ headers) (hne : h1 ≠ h2)
    (hside : h1.length ≤ 50 ↔ h2.length ≤ 50) :
    lookupA (create_truncated_headers_map headers) h1 ≠
      lookupA (create_truncated_headers_map headers) h2 := by
  obtain ⟨hkeys, _hs, _hl, hdist⟩ := create_truncated_inv headers hnd
  have hm : create_truncated_headers_map headers
      = (headers.foldl (truncStep 50 45) ([], fun _ => 0)).1 := rfl
  have hk1 : h1 ∈ keysOf (headers.foldl (truncStep 50 45) ([], fun _ => 0)).1 := by
    rw [hkeys]; exact m1
  have hk2 : h2 ∈ keysOf (headers.foldl (truncStep 50 45) ([], fun _ => 0)).1 := by
    rw [hkeys]; exact m2
  obtain ⟨v1, hv1⟩ := mem_keysOf.mp hk1
  obtain ⟨v2, hv2⟩ := mem_keysOf.mp hk2
  have hndk : (keysOf (headers.foldl (truncStep 50 45) ([], fun _ => 0)).1).Nodup := by
    rw [hkeys]; exact hnd
  have l1 := lookupA_eq_some_of_mem hndk hv1
  have l2 := lookupA_eq_some_of_mem hndk hv2
  have hvne : v1 ≠ v2 := hdist (h1, v1) hv1 (h2, v2) hv2 hne hside
  rw [hm, l1, l2]
  simp [hvne]

/-- Witness for C1: on the duplicate-free list `["ab", "cd"]` (both short) the
truncation map assigns different outputs. -/
theorem create_truncated_headers_map_injective_same_side_witness :
    [['a', 'b'], ['c', 'd']].Nodup ∧
    lookupA (create_truncated_headers_map [['a', 'b'], ['c', 'd']]) ['a', 'b'] ≠
      lookupA (create_truncated_headers_map [['a', 'b'], ['c', 'd']]) ['c', 'd'] :=
  ⟨by decide,
   create_truncated_headers_map_injective_same_side
     [['a', 'b'], ['c', 'd']] ['a', 'b'] ['c', 'd']
     (by decide) (by decide) (by decide) (by decide) (by decide)⟩

/-- Counterexample to C1 as stated: on the duplicate-free two-header list
`[cxHeaderA, cxHeaderB]`, where `cxHeaderA` (49 characters) passes through
unchanged and `cxHeaderB` (51 characters) is truncated to its 45-character
base plus `_001`, the two distinct headers receive the same output. -/
theorem create_truncated_headers_map_collision :
    cxHeaderA ≠ cxHeaderB ∧
    cxHeaderA ∈ [cxHeaderA, cxHeaderB] ∧
    cxHeaderB ∈ [cxHeaderA, cxHeaderB] ∧
    [cxHeaderA, cxHeaderB].Nodup ∧
    lookupA (create_truncated_headers_map [cxHeaderA, cxHeaderB]) cxHeaderA =
      lookupA (create_truncated_headers_map [cxHeaderA, cxHeaderB]) cxHeaderB ∧
    lookupA (create_truncated_headers_map [cxHeaderA, cxHeaderB]) cxHeaderA =
      some cxHeaderA := by
  refine ⟨by decide, by decide, by decide, by decide, by decide, by decide⟩

-- ## Mapper invariant lemmas

theorem mapperRowStep_cases (sp : Str) (st : MapperState) (raw : Str) :
    mapperRowStep sp st raw = st ∨
    ∃ q h, q ∉ st.rgs_seen ∧ h ∉ st.genome_ids_seen ∧
      mapperRowStep sp st raw =
        ⟨dictInsert st.genome_to_rgs h q,
         q :: st.rgs_seen, h :: st.genome_ids_seen⟩ := by
  simp only [mapperRowStep]
  split_ifs with h1 h2 h3 h4 h5
  · left; rfl
  · left; rfl
  · right
    exact ⟨((pstrip raw).splitOn '\t').getD 0 [],
      ((pstrip raw).splitOn '\t').getD 1 [], h5.1, h5.2, rfl⟩
  · left; rfl
  · left; rfl
  · left; rfl

theorem mapperRowStep_props (sp : Str) (st : MapperState) (raw : Str)
    (hinv : MapperInv st) :
    MapperInv (mapperRowStep sp st raw) ∧
    ∃ t, (mapperRowStep sp st raw).genome_to_rgs = st.genome_to_rgs ++ t := by
  obtain ⟨hk, hv, hndk, hndv⟩ := hinv
  rcases mapperRowStep_cases sp st raw with heq | ⟨q, h, hq, hh, heq⟩
  · rw [heq]
    exact ⟨⟨hk, hv, hndk, hndv⟩, [], by simp⟩
  · rw [heq]
    have hfresh : ∀ p ∈ st.genome_to_rgs, p.1 ≠ h := by
      intro p hp he
      exact hh (he ▸ hk p hp)
    simp only [dictInsert_of_fresh st.genome_to_rgs h q hfresh]
    refine ⟨⟨?_, ?_, ?_, ?_⟩, [(h, q)], rfl⟩
    · intro p hp
      rcases List.mem_append.mp hp with hold | hnew
      · exact List.mem_cons_of_mem _ (hk p hold)
      · rw [List.mem_singleton.mp hnew]
        exact List.mem_cons_self _ _
    · intro p hp
      rcases List.mem_append.mp hp with hold | hnew
      · exact List.mem_cons_of_mem _ (hv p hold)
      · rw [List.mem_singleton.mp hnew]
        exact List.mem_cons_self _ _
    · rw [List.map_append]
      simp only [List.nodup_append, List.map_cons, List.map_nil]
      refine ⟨hndk, List.nodup_singleton _, ?_⟩
      intro a ha hb
      rw [List.mem_singleton.mp hb] at ha
      obtain ⟨p, hp, he⟩ := List.mem_map.mp ha
      exact hfresh p hp he
    · rw [List.map_append]
      simp only [List.nodup_append, List.map_cons, List.map_nil]
      refine ⟨hndv, List.nodup_singleton _, ?_⟩
      intro a ha hb
      rw [List.mem_singleton.mp hb] at ha
      obtain ⟨p, hp, he⟩ := List.mem_map.mp ha
      exact hq (he ▸ hv p hp)

theorem mapper_fold_rows_props (sp : Str) :
    ∀ (rows : List Str) (st : MapperState), MapperInv st →
    MapperInv (rows.foldl (mapperRowStep sp) st) ∧
    ∃ t, (rows.foldl (mapperRowStep sp) st).genome_to_rgs =
      st.genome_to_rgs ++ t := by
  intro rows
  induction rows with
  | nil =>
    intro st hinv
    exact ⟨hinv, [], by simp⟩
  | cons r rest ih =>
    intro st hinv
    obtain ⟨h1, t1, ht1⟩ := mapperRowStep_props sp st r hinv
    obtain ⟨h2, t2, ht2⟩ := ih (mapperRowStep sp st r) h1
    refine ⟨h2, t1 ++ t2, ?_⟩
    simp only [List.foldl_cons] at *
    rw [ht2, ht1, List.append_assoc]

theorem mapperReportStep_props (model_species : List Str) (st : MapperState)
    (report : BlastReport) (hinv : MapperInv st) :
    MapperInv (mapperReportStep model_species st report) ∧
    ∃ t, (mapperReportStep model_species st report).genome_to_rgs =
      st.genome_to_rgs ++ t := by
  unfold mapperReportStep
  split
  · exact ⟨hinv, [], by simp⟩
  · split
    · exact ⟨hinv, [], by simp⟩
    · split
      · exact ⟨hinv, [], by simp⟩
      · exact mapper_fold_rows_props _ _ st hinv

theorem mapper_fold_reports_props (model_species : List Str) :
    ∀ (reports : List BlastReport) (st : MapperState), MapperInv st →
    MapperInv (reports.foldl (mapperReportStep model_species) st) ∧
    ∃ t, (reports.foldl (mapperReportStep model_species) st).genome_to_rgs =
      st.genome_to_rgs ++ t := by
  intro reports
  induction reports with
  | nil =>
    intro st hinv
    exact ⟨hinv, [], by simp⟩
  | cons r rest ih =>
    intro st hinv
    obtain ⟨h1, t1, ht1⟩ := mapperReportStep_props model_species st r hinv
    obtain ⟨h2, t2, ht2⟩ := ih (mapperReportStep model_species st r) h1
    refine ⟨h2, t1 ++ t2, ?_⟩
    simp only [List.foldl_cons] at *
    rw [ht2, ht1, List.append_assoc]

theorem mapperInv_empty : MapperInv ⟨[], [], []⟩ := by
  refine ⟨?_, ?_, ?_, ?_⟩ <;> simp

theorem eq_of_mem_nodup_keys {m : List (Str × Str)}
    (hnd : (m.map Prod.fst).Nodup) {k v w : Str}
    (h1 : (k, v) ∈ m) (h2 : (k, w) ∈ m) : v = w := by
  induction m with
  | nil => cases h1
  | cons p rest ih =>
    have hndr : (rest.map Prod.fst).Nodup := (List.nodup_cons.mp hnd).2
    have hhead : p.1 ∉ rest.map Prod.fst := (List.nodup_cons.mp hnd).1
    cases h1 with
    | head =>
      cases h2 with
      | head => rfl
      | tail _ h2' =>
        exact absurd (List.mem_map_of_mem Prod.fst h2') hhead
    | tail _ h1' =>
      cases h2 with
      | head =>
        exact absurd (List.mem_map_of_mem Prod.fst h1') hhead
      | tail _ h2' => exact ih hndr h1' h2'

theorem mapperRowStep_char (sp : Str) (st : MapperState) (raw q h : Str)
    (hnil : pstrip raw ≠ [])
    (hhash : (pstrip raw).head? ≠ some '#')
    (hlen : 2 ≤ ((pstrip raw).splitOn '\t').length)
    (hq : ((pstrip raw).splitOn '\t').getD 0 [] = q)
    (hh : ((pstrip raw).splitOn '\t').getD 1 [] = h)
    (htag : 2 ≤ (q.splitOn '-').length)
    (hsub : ∀ p ∈ st.genome_to_rgs, p.1 ∈ st.genome_ids_seen) :
    mapperRowStep sp st raw =
      if (q.splitOn '-').getD 1 [] = sp ∧ q ∉ st.rgs_seen ∧
          h ∉ st.genome_ids_seen
      then ⟨st.genome_to_rgs ++ [(h, q)],
            q :: st.rgs_seen, h :: st.genome_ids_seen⟩
      else st := by
  subst hq hh
  simp only [mapperRowStep]
  rw [if_neg (by push_neg; exact ⟨hnil, hhash⟩)]
  rw [if_neg (by omega)]
  rw [if_pos htag]
  by_cases hsp : ((((pstrip raw).splitOn '\t').getD 0 []).splitOn '-').getD 1 [] = sp
  · rw [if_pos hsp]
    by_cases hseen : ((pstrip raw).splitOn '\t').getD 0 [] ∉ st.rgs_seen ∧
        ((pstrip raw).splitOn '\t').getD 1 [] ∉ st.genome_ids_seen
    · rw [if_pos hseen, if_pos ⟨hsp, hseen.1, hseen.2⟩]
      have hfresh : ∀ p ∈ st.genome_to_rgs,
          p.1 ≠ ((pstrip raw).splitOn '\t').getD 1 [] := by
        intro p hp he
        exact hseen.2 (he ▸ hsub p hp)
      rw [dictInsert_of_fresh _ _ _ hfresh]
    · rw [if_neg hseen, if_neg (fun hc => hseen ⟨hc.2.1, hc.2.2⟩)]
  · rw [if_neg hsp, if_neg (fun hc => hsp hc.1)]

-- ## Claim C4: the mapping is a strict partial bijection

/-- C4.  For every set of input hit reports, the genome→RGS mapping built by
`create_rgs_genome_mapping` has duplicate-free keys (genome identifiers) and
duplicate-free values (reference identifiers): no genome sequence maps to more
than one reference sequence and no reference sequence is the image of more
than one genome sequence. -/
theorem create_rgs_genome_mapping_bijective
    (blast_reports : List BlastReport)
    (rgs_sequences : List (Str × (Str × Str × Str)))
    (model_species : List Str) :
    ((create_rgs_genome_mapping blast_reports rgs_sequences
        model_species).map Prod.fst).Nodup ∧
    ((create_rgs_genome_mapping blast_reports rgs_sequences
        model_species).map Prod.snd).Nodup := by
  have hrun := (mapper_fold_reports_props model_species blast_reports
    ⟨[], [], []⟩ mapperInv_empty).1
  exact ⟨hrun.2.2.1, hrun.2.2.2⟩

-- ## Claim C5: greedy processing with global consumption

/-- C5.  (1) For every well-formed report row, the pair `(hit, query)` is
recorded exactly when the query's embedded species tag equals the report's
model species and neither the query nor the hit has been consumed, and then
both are marked consumed; (2) processing only extends the mapping, so
recorded pairings survive all later rows and reports; (3) the final mapping
holds at most one pairing per genome identifier, so when two reports pair the
same genome identifier only the first-processed pairing survives. -/
theorem create_rgs_genome_mapping_greedy :
    (∀ (sp : Str) (st : MapperState) (raw q h : Str),
      pstrip raw ≠ [] → (pstrip raw).head? ≠ some '#' →
      2 ≤ ((pstrip raw).splitOn '\t').length →
      ((pstrip raw).splitOn '\t').getD 0 [] = q →
      ((pstrip raw).splitOn '\t').getD 1 [] = h →
      2 ≤ (q.splitOn '-').length →
      (∀ p ∈ st.genome_to_rgs, p.1 ∈ st.genome_ids_seen) →
      mapperRowStep sp st raw =
        if (q.splitOn '-').getD 1 [] = sp ∧ q ∉ st.rgs_seen ∧
            h ∉ st.genome_ids_seen
        then ⟨st.genome_to_rgs ++ [(h, q)],
              q :: st.rgs_seen, h :: st.genome_ids_seen⟩
        else st) ∧
    (∀ (model_species : List Str) (st : MapperState)
      (reports : List BlastReport), MapperInv st →
      ∃ t, (reports.foldl (mapperReportStep model_species) st).genome_to_rgs =
        st.genome_to_rgs ++ t) ∧
    (∀ (blast_reports : List BlastReport)
      (rgs_sequences : List (Str × (Str × Str × Str)))
      (model_species : List Str) (h q q' : Str),
      (h, q) ∈ create_rgs_genome_mapping blast_reports rgs_sequences
        model_species →
      (h, q') ∈ create_rgs_genome_mapping blast_reports rgs_sequences
        model_species → q = q') := by
  refine ⟨mapperRowStep_char, ?_, ?_⟩
  · intro model_species st reports hinv
    exact (mapper_fold_reports_props model_species reports st hinv).2
  · intro blast_reports rgs_sequences model_species h q q' h1 h2
    have hrun := (mapper_fold_reports_props model_species blast_reports
      ⟨[], [], []⟩ mapperInv_empty).1
    exact eq_of_mem_nodup_keys hrun.2.2.1 h1 h2

/-- Witness for C5: on the concrete row `rgs3-human-x-1<TAB>G7` for model
species `human` and the empty state, the pair `(G7, rgs3-human-x-1)` is
recorded and both identifiers are marked consumed. -/
theorem create_rgs_genome_mapping_greedy_witness :
    mapperRowStep ("human".toList) ⟨[], [], []⟩
        ("rgs3-human-x-1\tG7".toList) =
      ⟨[(("G7".toList), ("rgs3-human-x-1".toList))],
       [("rgs3-human-x-1".toList)], [("G7".toList)]⟩ := by
  rw [create_rgs_genome_mapping_greedy.1 ("human".toList) ⟨[], [], []⟩
    ("rgs3-human-x-1\tG7".toList) ("rgs3-human-x-1".toList) ("G7".toList)
    (by decide) (by decide) (by decide) (by decide) (by decide) (by decide)
    (by intro p hp; cases hp)]
  decide

-- ## Claim C7: shape preservation of the Modified-Genome Synthesizer

/-- C7.  For every input genome database, the modified database has exactly
the same number of records as the input, and the record at every position of
the output is derived from the record at the same position of the input
(each input record yields exactly one output record, in order). -/
theorem create_modified_genome_shape
    (truncMap fullMap rgs_sequences : List (Str × Str))
    (records : List FastaRec) :
    (create_modified_genome truncMap fullMap rgs_sequences records).length =
      records.length ∧
    ∀ i : Nat,
      (create_modified_genome truncMap fullMap rgs_sequences records)[i]? =
        (records[i]?).map (modify_record truncMap fullMap rgs_sequences) := by
  constructor
  · simp [create_modified_genome]
  · intro i
    simp [create_modified_genome]

-- ## Claim C6: substitution rule of the Modified-Genome Synthesizer

/-- C6 (amended).  A record is replaced exactly when its identifier is a
mapped key AND the mapped full reference header resolves to a non-empty
sequence in the RGS dictionary: in that case the output record carries the
truncated reference identifier (falling back to the full header when absent
from the truncation map) and the re-wrapped reference residues.  When the
identifier is not a mapped key — and also when it is mapped but the reference
sequence is missing or empty — the original record is emitted unchanged.
(The unamended claim fails in the mapped-but-missing case: see the
counterexample.) -/
theorem create_modified_genome_substitution
    (truncMap fullMap rgs_sequences : List (Str × Str))
    (h : Str) (seqs : List Str) :
    (∀ f r, lookupA fullMap h = some f → lookupA rgs_sequences f = some r →
      r ≠ [] →
      modify_record truncMap fullMap rgs_sequences ⟨h, seqs⟩ =
        ⟨(lookupA truncMap h).getD f, wrap80 r⟩) ∧
    (lookupA fullMap h = none →
      modify_record truncMap fullMap rgs_sequences ⟨h, seqs⟩ = ⟨h, seqs⟩) ∧
    (∀ f, lookupA fullMap h = some f → lookupA rgs_sequences f = none →
      modify_record truncMap fullMap rgs_sequences ⟨h, seqs⟩ = ⟨h, seqs⟩) ∧
    (∀ f, lookupA fullMap h = some f → lookupA rgs_sequences f = some [] →
      modify_record truncMap fullMap rgs_sequences ⟨h, seqs⟩ = ⟨h, seqs⟩) := by
  refine ⟨?_, ?_, ?_, ?_⟩
  · intro f r hf hr hne
    simp [modify_record, hf, hr, hne]
  · intro hf
    simp [modify_record, hf]
  · intro f hf hr
    simp [modify_record, hf, hr]
  · intro f hf hr
    simp [modify_record, hf, hr]

/-- Witness for C6: a mapped identifier whose reference sequence is present
and non-empty is replaced by the truncated reference identifier and the
re-wrapped residues. -/
theorem create_modified_genome_substitution_witness :
    modify_record [("g1".toList, "t1".toList)] [("g1".toList, "r1".toList)]
        [("r1".toList, "MKV".toList)] ⟨"g1".toList, ["AAA".toList]⟩ =
      ⟨"t1".toList, ["MKV".toList]⟩ := by
  rw [(create_modified_genome_substitution [("g1".toList, "t1".toList)]
    [("g1".toList, "r1".toList)] [("r1".toList, "MKV".toList)]
    ("g1".toList) (["AAA".toList])).1 ("r1".toList) ("MKV".toList)
    (by decide) (by decide) (by decide)]
  decide

/-- Counterexample to C6 as stated: the identifier `g1` is a key of the
mapping, yet because the mapped reference header `r1` is absent from the RGS
dictionary the synthesizer emits the original record unchanged instead of the
truncated reference identifier `t1`. -/
theorem create_modified_genome_missing_rgs_counterexample :
    (lookupA [("g1".toList, "r1".toList)] ("g1".toList)).isSome = true ∧
    create_modified_genome [("g1".toList, "t1".toList)]
        [("g1".toList, "r1".toList)] []
        [⟨"g1".toList, ["AAA".toList]⟩] = [⟨"g1".toList, ["AAA".toList]⟩] ∧
    ("t1".toList) ≠ ("g1".toList) := by
  decide

-- ## Claim C3: behaviour on an empty keeper set

/-- C3 (amended).  An empty keeper set is not fatal: script 013 logs a
warning, creates an empty output FASTA, and exits with status 0, skipping
extraction.  (The unamended claim — abort with non-zero status and no output
written — fails: see the counterexample.) -/
theorem mainAfterKeepers_empty (databases : List (List FastaRec)) :
    mainAfterKeepers [] databases = (0, true, []) := rfl

/-- Counterexample to C3 as stated: with zero keepers and a non-empty
database, the run exits with status 0 (not non-zero) and the output file is
created (empty), so partial output is written for the stage. -/
theorem mainAfterKeepers_empty_counterexample :
    (mainAfterKeepers [] [[⟨"a".toList, ["M".toList]⟩]]).1 = 0 ∧
    (mainAfterKeepers [] [[⟨"a".toList, ["M".toList]⟩]]).2.1 = true ∧
    (mainAfterKeepers [] [[⟨"a".toList, ["M".toList]⟩]]).2.2 = [] := by
  decide

-- ## Reciprocal-filter lemmas

theorem reciprocalRowStep_keeper_cases (rgs_identifiers rbh_species : List Str)
    (acc : List Str × List (Str × Str)) (raw : Str) :
    (reciprocalRowStep rgs_identifiers rbh_species acc raw).1 = acc.1 ∨
    ∃ q, q ∉ rgs_identifiers ∧
      (reciprocalRowStep rgs_identifiers rbh_species acc raw).1 =
        acc.1 ++ [q] := by
  simp only [reciprocalRowStep]
  split_ifs with h1 h2 h3 h4
  · left; rfl
  · left; rfl
  · left; rfl
  · right
    exact ⟨((pstrip raw).splitOn '\t').getD 0 [], h4, rfl⟩
  · left; rfl

theorem keepers_fold_not_in_ids (rgs_identifiers rbh_species : List Str) :
    ∀ (lines : List Str) (acc : List Str × List (Str × Str)) (k : Str),
    k ∈ (lines.foldl (reciprocalRowStep rgs_identifiers rbh_species) acc).1 →
    k ∈ acc.1 ∨ k ∉ rgs_identifiers := by
  intro lines
  induction lines with
  | nil =>
    intro acc k hk
    exact Or.inl hk
  | cons l rest ih =>
    intro acc k hk
    rcases ih (reciprocalRowStep rgs_identifiers rbh_species acc l) k hk with
      hstep | hout
    · rcases reciprocalRowStep_keeper_cases rgs_identifiers rbh_species acc l
        with hsame | ⟨q, hq, happ⟩
      · rw [hsame] at hstep
        exact Or.inl hstep
      · rw [happ] at hstep
        rcases List.mem_append.mp hstep with hin | hnew
        · exact Or.inl hin
        · rw [List.mem_singleton.mp hnew]
          exact Or.inr hq
    · exact Or.inr hout

theorem keepers_not_in_ids (report_lines rgs_identifiers rbh_species : List Str)
    (k : Str)
    (hk : k ∈ (parse_reciprocal_blast_results report_lines rgs_identifiers
      rbh_species).1) : k ∉ rgs_identifiers := by
  rcases keepers_fold_not_in_ids rgs_identifiers rbh_species report_lines
    ([], []) k hk with hin | hout
  · cases hin
  · exact hout

theorem loadIdStep_mono (ids : List Str) (line : Str) (x : Str)
    (hx : x ∈ ids) : x ∈ loadIdStep ids line := by
  simp only [loadIdStep]
  split_ifs <;> first
    | exact List.mem_append_left _ hx
    | exact hx

theorem load_fold_mono : ∀ (lines : List Str) (acc : List Str) (x : Str),
    x ∈ acc → x ∈ lines.foldl loadIdStep acc := by
  intro lines
  induction lines with
  | nil => intro acc x hx; exact hx
  | cons l rest ih =>
    intro acc x hx
    exact ih (loadIdStep acc l) x (loadIdStep_mono acc l x hx)

theorem load_contribution : ∀ (lines : List Str) (acc : List Str) (line : Str),
    line ∈ lines → 3 ≤ ((pstrip line).splitOn '\t').length →
    ((pstrip line).splitOn '\t').getD 0 [] ∈ lines.foldl loadIdStep acc ∧
    ((pstrip line).splitOn '\t').getD 1 [] ∈ lines.foldl loadIdStep acc ∧
    ((pstrip line).splitOn '\t').getD 2 [] ∈ lines.foldl loadIdStep acc := by
  intro lines
  induction lines with
  | nil => intro acc line hl; cases hl
  | cons l rest ih =>
    intro acc line hl h3
    have hstep : loadIdStep acc line = acc ++
        [((pstrip line).splitOn '\t').getD 0 [],
         ((pstrip line).splitOn '\t').getD 1 [],
         ((pstrip line).splitOn '\t').getD 2 []] := by
      simp only [loadIdStep]
      rw [if_pos h3]
    rcases List.mem_cons.mp hl with heq | hl'
    · simp only [List.foldl_cons, ← heq]
      refine ⟨?_, ?_, ?_⟩ <;>
        refine load_fold_mono rest (loadIdStep acc line) _ ?_ <;>
        rw [hstep] <;>
        refine List.mem_append_right _ ?_ <;> simp
    · simp only [List.foldl_cons]
      exact ih (loadIdStep acc l) line hl' h3

-- ## Claim C2: classification rule of the Reciprocal Filter

/-- C2 (amended).  Per well-formed report row: when the hit's species is a
model species and the query is not a reference-set identifier, the query is
appended to the keepers; when the hit's species is a model species and the
query IS a reference-set identifier, the row is silently discarded — it is
NOT written to the rejects log; the rejects log receives exactly the rows
whose hit species is not a model species.  (The unamended claim — that
reference-identifier queries are written to the rejects log — fails: see the
counterexample.) -/
theorem parse_reciprocal_classification
    (rgs_identifiers rbh_species : List Str)
    (acc : List Str × List (Str × Str)) (raw query hit : Str)
    (hlen : 2 ≤ ((pstrip raw).splitOn '\t').length)
    (hq : ((pstrip raw).splitOn '\t').getD 0 [] = query)
    (hh : ((pstrip raw).splitOn '\t').getD 1 [] = hit)
    (hhp : 2 ≤ (hit.splitOn '-').length) :
    (rbh_species.any (fun sp =>
        containsSubB sp (hitSpeciesName ((hit.splitOn '-').getD 1 []))) = true →
      query ∉ rgs_identifiers →
      reciprocalRowStep rgs_identifiers rbh_species acc raw =
        (acc.1 ++ [query], acc.2)) ∧
    (rbh_species.any (fun sp =>
        containsSubB sp (hitSpeciesName ((hit.splitOn '-').getD 1 []))) = true →
      query ∈ rgs_identifiers →
      reciprocalRowStep rgs_identifiers rbh_species acc raw = acc) ∧
    (rbh_species.any (fun sp =>
        containsSubB sp (hitSpeciesName ((hit.splitOn '-').getD 1 []))) = false →
      reciprocalRowStep rgs_identifiers rbh_species acc raw =
        (acc.1, acc.2 ++ [(query, hit)])) := by
  subst hq hh
  refine ⟨?_, ?_, ?_⟩
  · intro hrbh hnotin
    simp only [reciprocalRowStep]
    rw [if_neg (by omega), if_neg (by omega), if_pos hrbh, if_neg hnotin]
  · intro hrbh hin
    simp only [reciprocalRowStep]
    rw [if_neg (by omega), if_neg (by omega), if_pos hrbh, if_pos hin]
  · intro hrbh
    simp only [reciprocalRowStep]
    rw [if_neg (by omega), if_neg (by omega),
      if_neg (fun hc => Bool.false_ne_true (hrbh.symm.trans hc))]

/-- Witness for C2: on the row `q2<TAB>hit-human` with model species `human`
and exclusion list `[q1]`, the query `q2` is appended to the keepers. -/
theorem parse_reciprocal_classification_witness :
    reciprocalRowStep ["q1".toList] ["human".toList] ([], [])
        ("q2\thit-human".toList) = (["q2".toList], []) := by
  rw [(parse_reciprocal_classification ["q1".toList] ["human".toList]
    ([], []) ("q2\thit-human".toList) ("q2".toList) ("hit-human".toList)
    (by decide) (by decide) (by decide) (by decide)).1
    (by decide) (by decide)]
  rfl

/-- Counterexample to C2 as stated: a row whose hit species is a model
species but whose query is itself a reference-set identifier is neither kept
nor written to the rejects log — both outputs stay empty, although the claim
requires the row in the rejects log. -/
theorem parse_reciprocal_silent_drop_counterexample :
    parse_reciprocal_blast_results ["q1\thit-human".toList] ["q1".toList]
        ["human".toList] = ([], []) ∧
    ("q1".toList) ∈ ["q1".toList] ∧
    (["human".toList].any (fun sp => containsSubB sp
      (hitSpeciesName (("hit-human".toList.splitOn '-').getD 1 [])))) = true := by
  decide

-- ## Claim C8: anti-circularity of the Keeper Set

/-- C8.  Every keeper produced by the Reciprocal Filter differs from the
truncated header and from the full header of every three-column row of the
mapping file: the Keeper Set is disjoint from the Reference Set under both
identifier variants. -/
theorem keeper_set_anticircular
    (mapping_lines report_lines rbh_species : List Str) (k line : Str)
    (hk : k ∈ (parse_reciprocal_blast_results report_lines
      (load_rgs_identifiers mapping_lines) rbh_species).1)
    (hl : line ∈ mapping_lines)
    (h3 : 3 ≤ ((pstrip line).splitOn '\t').length) :
    k ≠ ((pstrip line).splitOn '\t').getD 1 [] ∧
    k ≠ ((pstrip line).splitOn '\t').getD 2 [] := by
  have hnotin := keepers_not_in_ids report_lines
    (load_rgs_identifiers mapping_lines) rbh_species k hk
  obtain ⟨_, hmem1, hmem2⟩ := load_contribution mapping_lines [] line hl h3
  exact ⟨fun he => hnotin (he ▸ hmem1), fun he => hnotin (he ▸ hmem2)⟩

/-- Witness for C8: with mapping row `g1<TAB>t1<TAB>f1` and report row
`q2<TAB>hit-human`, the keeper `q2` differs from both the truncated header
`t1` and the full header `f1`. -/
theorem keeper_set_anticircular_witness :
    ("q2".toList) ≠ ((pstrip ("g1\tt1\tf1".toList)).splitOn '\t').getD 1 [] ∧
    ("q2".toList) ≠ ((pstrip ("g1\tt1\tf1".toList)).splitOn '\t').getD 2 [] :=
  keeper_set_anticircular ["g1\tt1\tf1".toList] ["q2\thit-human".toList]
    ["human".toList] ("q2".toList) ("g1\tt1\tf1".toList)
    (by decide) (by decide) (by decide)

-- ## Claim C10: mapped genome identifiers are excluded from keepers

/-- C10.  The exclusion list contains the genome-sequence identifier (first
column) of every three-column mapping row, and consequently a report row
whose query equals such a genome identifier is never added to the keeper set,
whatever its hit species. -/
theorem mapped_genome_ids_excluded
    (mapping_lines report_lines rbh_species : List Str) (line query : Str)
    (hl : line ∈ mapping_lines)
    (h3 : 3 ≤ ((pstrip line).splitOn '\t').length)
    (hq : query = ((pstrip line).splitOn '\t').getD 0 []) :
    query ∈ load_rgs_identifiers mapping_lines ∧
    query ∉ (parse_reciprocal_blast_results report_lines
      (load_rgs_identifiers mapping_lines) rbh_species).1 := by
  obtain ⟨hmem0, _, _⟩ := load_contribution mapping_lines [] line hl h3
  refine ⟨hq ▸ hmem0, fun hk => ?_⟩
  exact keepers_not_in_ids report_lines (load_rgs_identifiers mapping_lines)
    rbh_species query hk (hq ▸ hmem0)

/-- Witness for C10: with mapping row `g1<TAB>t1<TAB>f1`, the genome id `g1`
is in the exclusion list and is not a keeper of the report `g1<TAB>hit-human`
even though the hit species is a model species. -/
theorem mapped_genome_ids_excluded_witness :
    ("g1".toList) ∈ load_rgs_identifiers ["g1\tt1\tf1".toList] ∧
    ("g1".toList) ∉ (parse_reciprocal_blast_results ["g1\thit-human".toList]
      (load_rgs_identifiers ["g1\tt1\tf1".toList]) ["human".toList]).1 :=
  mapped_genome_ids_excluded ["g1\tt1\tf1".toList] ["g1\thit-human".toList]
    ["human".toList] ("g1\tt1\tf1".toList) ("g1".toList)
    (by decide) (by decide) (by decide)

-- ## Remapper lemmas

theorem remap_fasta_fold (short_ids___gigantic_ids : List (Str × Str)) :
    ∀ (recs : List FastaRec) (acc : RemapResult),
    recs.foldl (remapRecStep short_ids___gigantic_ids) acc =
      ⟨acc.records ++ recs.map (fun rec =>
          match lookupA short_ids___gigantic_ids rec.header with
          | some gigantic_id => ⟨gigantic_id, rec.seqLines⟩
          | none => rec),
       acc.sequences_processed + recs.length,
       acc.sequences_remapped + recs.countP
         (fun rec => (lookupA short_ids___gigantic_ids rec.header).isSome),
       acc.sequences_not_found + recs.countP
         (fun rec => (lookupA short_ids___gigantic_ids rec.header).isNone)⟩ := by
  intro recs
  induction recs with
  | nil => intro acc; simp
  | cons r rest ih =>
    intro acc
    simp only [List.foldl_cons, ih]
    rcases hl : lookupA short_ids___gigantic_ids r.header with _ | g <;>
      simp only [remapRecStep, hl, RemapResult.mk.injEq, List.map_cons,
        List.countP_cons, List.length_cons, Option.isSome_none,
        Option.isNone_none, Option.isSome_some, Option.isNone_some] <;>
      refine ⟨?_, ?_, ?_, ?_⟩ <;>
      first
        | (simp [List.append_assoc]; done)
        | omega
        | (simp only [Bool.false_eq_true, Bool.true_eq_false, if_false,
            if_true]; omega)

theorem remap_rgs_header_miss
    (rgs_headers___cgs_ids cgs_ids___gigantic_ids : List (Str × Str))
    (h : Str)
    (hmiss : (remap_rgs_header rgs_headers___cgs_ids cgs_ids___gigantic_ids
      h).2 = false) :
    (remap_rgs_header rgs_headers___cgs_ids cgs_ids___gigantic_ids h).1 = h := by
  unfold remap_rgs_header at hmiss ⊢
  rcases hres : resolve_cgs rgs_headers___cgs_ids h with _ | c
  · rfl
  · rw [hres] at hmiss
    show (if c = [] then (h, false)
      else match lookupA cgs_ids___gigantic_ids c with
        | some new_header => (new_header, true)
        | none => (h, false)).1 = h
    have hmiss' : (if c = [] then (h, false)
        else match lookupA cgs_ids___gigantic_ids c with
          | some new_header => (new_header, true)
          | none => (h, false)).2 = false := hmiss
    by_cases hc : c = []
    · rw [if_pos hc]
    · rw [if_neg hc] at hmiss' ⊢
      rcases hg : lookupA cgs_ids___gigantic_ids c with _ | gid
      · rfl
      · rw [hg] at hmiss'
        exact absurd (show true = false from hmiss') (by simp)

theorem remap_rgs_header_miss_iff
    (rgs_headers___cgs_ids cgs_ids___gigantic_ids : List (Str × Str))
    (h : Str) :
    (remap_rgs_header rgs_headers___cgs_ids cgs_ids___gigantic_ids h).2 =
        false ↔
      ∀ c, resolve_cgs rgs_headers___cgs_ids h = some c →
        c = [] ∨ lookupA cgs_ids___gigantic_ids c = none := by
  unfold remap_rgs_header
  rcases hres : resolve_cgs rgs_headers___cgs_ids h with _ | c
  · constructor
    · intro _ c hc
      cases hc
    · intro _
      rfl
  · show (if c = [] then (h, false)
      else match lookupA cgs_ids___gigantic_ids c with
        | some new_header => (new_header, true)
        | none => (h, false)).2 = false ↔ _
    by_cases hc : c = []
    · rw [if_pos hc]
      constructor
      · intro _ c' hc'
        injection hc' with he
        left
        rw [← he]
        exact hc
      · intro _
        rfl
    · rw [if_neg hc]
      rcases hg : lookupA cgs_ids___gigantic_ids c with _ | gid
      · constructor
        · intro _ c' hc'
          injection hc' with he
          right
          rw [← he]
          exact hg
        · intro _
          rfl
      · constructor
        · intro hfalse
          exact absurd (show true = false from hfalse) (by simp)
        · intro hall
          rcases hall c rfl with hce | hgn
          · exact absurd hce hc
          · rw [hgn] at hg
            cases hg

theorem remap_rgs_fold
    (rgs_headers___cgs_ids cgs_ids___gigantic_ids : List (Str × Str)) :
    ∀ (recs : List FastaRec) (acc : List (Str × Str) × Nat × Nat),
    recs.foldl (remapRgsStep rgs_headers___cgs_ids cgs_ids___gigantic_ids)
        acc =
      (acc.1 ++ recs.map (fun rec =>
          ((remap_rgs_header rgs_headers___cgs_ids cgs_ids___gigantic_ids
            rec.header).1, rec.seqLines.flatten)),
       acc.2.1 + recs.countP (fun rec =>
         (remap_rgs_header rgs_headers___cgs_ids cgs_ids___gigantic_ids
           rec.header).2),
       acc.2.2 + recs.countP (fun rec =>
         !(remap_rgs_header rgs_headers___cgs_ids cgs_ids___gigantic_ids
           rec.header).2)) := by
  intro recs
  induction recs with
  | nil => intro acc; simp
  | cons r rest ih =>
    intro acc
    simp only [List.foldl_cons, ih]
    cases hr : (remap_rgs_header rgs_headers___cgs_ids cgs_ids___gigantic_ids
        r.header).2 <;>
      simp only [remapRgsStep, hr, Prod.mk.injEq, List.map_cons,
        List.countP_cons, Bool.false_eq_true, Bool.true_eq_false, if_false,
        if_true, Bool.not_false, Bool.not_true] <;>
      refine ⟨?_, ?_, ?_⟩ <;>
      first
        | (simp [List.append_assoc]; done)
        | omega
        | (simp only [Bool.false_eq_true, Bool.true_eq_false, if_false,
            if_true]; omega)

-- ## Claim C9: missing-link policy of the Remapper/Assembler

/-- C9 (amended).  For candidate sequences (script 015): a header with no
entry in the candidate-to-canonical table is emitted unchanged and the
not-found count equals the number of such misses; misses never abort the
per-file pass, but the run exits non-zero exactly when zero sequences were
remapped overall.  For reference sequences (script 016): a header counts as
unmapped — and is then kept unchanged — exactly when neither the exact lookup
nor the prefix-overlap partial match resolves through both mapping tables;
such misses are never fatal.  (The unamended claim fails on script 016's
partial match and on script 015's zero-remap exit: see the counterexample.) -/
theorem remap_missing_link_policy :
    (∀ (short_ids___gigantic_ids : List (Str × Str)) (recs : List FastaRec)
        (i : Nat) (h : Str) (s : List Str),
      recs[i]? = some ⟨h, s⟩ → lookupA short_ids___gigantic_ids h = none →
      ((remap_fasta_identifiers recs short_ids___gigantic_ids).records)[i]? =
        some ⟨h, s⟩) ∧
    (∀ (short_ids___gigantic_ids : List (Str × Str)) (recs : List FastaRec),
      (remap_fasta_identifiers recs
        short_ids___gigantic_ids).sequences_not_found =
      recs.countP (fun rec =>
        (lookupA short_ids___gigantic_ids rec.header).isNone)) ∧
    (∀ (short_ids___gigantic_ids : List (Str × Str)) (recs : List FastaRec),
      remap_main_exit recs short_ids___gigantic_ids = 0 ↔
      (remap_fasta_identifiers recs
        short_ids___gigantic_ids).sequences_remapped ≠ 0) ∧
    (∀ (rgs_headers___cgs_ids cgs_ids___gigantic_ids : List (Str × Str))
        (recs : List FastaRec) (i : Nat) (h : Str) (s : List Str),
      recs[i]? = some ⟨h, s⟩ →
      (remap_rgs_header rgs_headers___cgs_ids cgs_ids___gigantic_ids h).2 =
        false →
      ((remap_rgs_sequences recs rgs_headers___cgs_ids
        cgs_ids___gigantic_ids).1)[i]? = some (h, s.flatten)) ∧
    (∀ (rgs_headers___cgs_ids cgs_ids___gigantic_ids : List (Str × Str))
        (recs : List FastaRec),
      (remap_rgs_sequences recs rgs_headers___cgs_ids
        cgs_ids___gigantic_ids).2.2 =
      recs.countP (fun rec => !(remap_rgs_header rgs_headers___cgs_ids
        cgs_ids___gigantic_ids rec.header).2)) ∧
    (∀ (rgs_headers___cgs_ids cgs_ids___gigantic_ids : List (Str × Str))
        (h : Str),
      (remap_rgs_header rgs_headers___cgs_ids cgs_ids___gigantic_ids h).2 =
          false ↔
        ∀ c, resolve_cgs rgs_headers___cgs_ids h = some c →
          c = [] ∨ lookupA cgs_ids___gigantic_ids c = none) := by
  refine ⟨?_, ?_, ?_, ?_, ?_, ?_⟩
  · intro map recs i h s hrec hnone
    have hrecords := congrArg RemapResult.records
      (remap_fasta_fold map recs ⟨[], 0, 0, 0⟩)
    show ((recs.foldl (remapRecStep map) ⟨[], 0, 0, 0⟩).records)[i]? = _
    rw [hrecords]
    simp [hrec, hnone]
  · intro map recs
    have hcount := congrArg RemapResult.sequences_not_found
      (remap_fasta_fold map recs ⟨[], 0, 0, 0⟩)
    simpa using hcount
  · intro map recs
    unfold remap_main_exit
    split_ifs with h0
    · simp [h0]
    · simp [h0]
  · intro table giant recs i h s hrec hmiss
    have hrecords := congrArg Prod.fst
      (remap_rgs_fold table giant recs ([], 0, 0))
    show ((recs.foldl (remapRgsStep table giant) ([], 0, 0)).1)[i]? = _
    rw [hrecords]
    simp [hrec, remap_rgs_header_miss table giant h hmiss]
  · intro table giant recs
    have hcount := congrArg (fun t => t.2.2)
      (remap_rgs_fold table giant recs ([], 0, 0))
    simpa using hcount
  · exact remap_rgs_header_miss_iff

/-- Witness for C9: the candidate header `b`, absent from the table
`[a → G]`, is emitted unchanged at its position and counted as the one
not-found record. -/
theorem remap_missing_link_policy_witness :
    ((remap_fasta_identifiers [⟨"b".toList, ["S".toList]⟩]
        [("a".toList, "G".toList)]).records)[0]? =
      some ⟨"b".toList, ["S".toList]⟩ :=
  remap_missing_link_policy.1 [("a".toList, "G".toList)]
    [⟨"b".toList, ["S".toList]⟩] 0 ("b".toList) (["S".toList])
    (by decide) (by decide)

/-- Counterexample to C9 as stated: (1) in script 016 the reference header
`ab` has no entry in the table `[abc → c1]`, yet via the prefix partial match
it is remapped to `G1` — the output header is changed and the unmapped count
stays 0; (2) in script 015 a run whose single candidate header misses the
table exits with status 1, so a per-record miss can make the run fatal. -/
theorem remap_missing_link_counterexample :
    lookupA [("abc".toList, "c1".toList)] ("ab".toList) = none ∧
    (remap_rgs_sequences [⟨"ab".toList, ["SEQ".toList]⟩]
        [("abc".toList, "c1".toList)] [("c1".toList, "G1".toList)]).1 =
      [("G1".toList, "SEQ".toList)] ∧
    ("G1".toList) ≠ ("ab".toList) ∧
    (remap_rgs_sequences [⟨"ab".toList, ["SEQ".toList]⟩]
        [("abc".toList, "c1".toList)] [("c1".toList, "G1".toList)]).2.2 = 0 ∧
    remap_main_exit [⟨"b".toList, ["S".toList]⟩]
        [("a".toList, "G".toList)] = 1 := by
  decide
